import Mathlib

/-!
Verification development for the twin-query columnar database.

The definitions below are a shallow embedding of the Rust sources:
  * src/src/data.rs   — value model, datums, typed columns, the Db store
  * src/src/insert.rs — CSV ingest (add_to_db)
  * src/src/exec.rs   — the staged executor with its id-set cache
  * src/src/plan.rs   — comparators, predicates, time bounds, plan staging

Rust HashMaps are modelled as association lists whose insert replaces the
value of an existing key, Rust HashSets of usize as Finset Nat (executor)
or duplicate-free insertion lists (store), and usize as Nat together with
explicit wrap-around modulo 2 ^ 64 where the source can overflow.
Mutation of an `&mut self` receiver is modelled by state passing: a method
that can fail part-way returns the (old or updated) state next to the
error value, exactly following the source's control flow.
-/

namespace TwinQuery

/-- Width of a Rust usize on the 64-bit targets the crate builds for. -/
def USIZE : Nat := 2 ^ 64

/-- Wrapping subtraction `a - b` on usize, for `b ≤ USIZE` (release-build
semantics of the `int_val - 1` expressions in plan.rs). -/
def usizeSub (a b : Nat) : Nat := (a + (USIZE - b)) % USIZE

/-- Value enum of src/src/data.rs (Bool / Int / String). -/
inductive Value where
  | bool (b : Bool)
  | int (i : Nat)
  | string (s : String)
deriving DecidableEq, Repr

/-- Discriminant position of a Value variant in its declaration order;
Rust's derived PartialOrd compares these first. -/
def Value.tag : Value → Nat
  | .bool _ => 0
  | .int _ => 1
  | .string _ => 2

/-- Comparison of Bool payloads (Rust: false < true). -/
def boolCmp : Bool → Bool → Ordering
  | false, false => .eq
  | false, true => .lt
  | true, false => .gt
  | true, true => .eq

/-- Derived PartialOrd of Value (src/src/data.rs line 14): variants compare
by declaration order first (Bool < Int < String) and by payload within a
variant.  String payloads compare lexicographically. -/
def Value.cmp : Value → Value → Ordering
  | .bool a, .bool b => boolCmp a b
  | .bool _, .int _ => .lt
  | .bool _, .string _ => .lt
  | .int _, .bool _ => .gt
  | .int a, .int b => compare a b
  | .int _, .string _ => .lt
  | .string _, .bool _ => .gt
  | .string _, .int _ => .gt
  | .string a, .string b => compare a b

/-- Comparator enum of src/src/plan.rs lines 13-20. -/
inductive Comparator where
  | equal
  | greater
  | greaterOrEqual
  | less
  | lessOrEqual
deriving DecidableEq, Repr

/-- Comparator::test of src/src/plan.rs lines 22-32: Equal uses the derived
PartialEq of Value, the others the derived PartialOrd. -/
def Comparator.test : Comparator → Value → Value → Bool
  | .equal, l, r => decide (l = r)
  | .greater, l, r => Value.cmp l r == Ordering.gt
  | .greaterOrEqual, l, r => (Value.cmp l r == Ordering.gt) || (Value.cmp l r == Ordering.eq)
  | .less, l, r => Value.cmp l r == Ordering.lt
  | .lessOrEqual, l, r => (Value.cmp l r == Ordering.lt) || (Value.cmp l r == Ordering.eq)

/-- Predicate enum of src/src/plan.rs lines 34-39. -/
inductive Predicate where
  | constant (c : Comparator) (v : Value)
  | and (p q : Predicate)
  | or (p q : Predicate)
deriving DecidableEq, Repr

/-- Predicate::test of src/src/plan.rs lines 57-64: the scanned value is the
left argument of the comparator. -/
def Predicate.test : Predicate → Value → Bool
  | .constant c r, v => c.test v r
  | .and l r, v => l.test v && r.test v
  | .or l r, v => l.test v || r.test v

/-- TimeBound of src/src/plan.rs lines 75-81: an open-closed interval with
optional endpoints (doc comment in the source: min < time <= max). -/
structure TimeBound where
  min : Option Nat
  max : Option Nat
deriving DecidableEq, Repr

/-- TimeBound::combine of src/src/plan.rs lines 112-117 (Option::or is
left-biased). -/
def TimeBound.combine (a b : TimeBound) : TimeBound :=
  { min := match a.min with | some m => some m | none => b.min,
    max := match a.max with | some m => some m | none => b.max }

/-- TimeBound::from_predicate of src/src/plan.rs lines 84-110.  The source
panics on a non-Int constant and is unimplemented on Or; both aborts are
modelled as none.  The `int_val - 1` subtractions are usize arithmetic and
wrap at 0 (they would panic in a checked build). -/
def TimeBound.fromPredicate : Predicate → Option TimeBound
  | .constant comp v =>
    match v with
    | .int i =>
      some (match comp with
        | .equal => { min := some (usizeSub i 1), max := some i }
        | .greater => { min := some i, max := none }
        | .greaterOrEqual => { min := some (usizeSub i 1), max := none }
        | .less => { min := none, max := some (usizeSub i 1) }
        | .lessOrEqual => { min := none, max := some i })
    | _ => none
  | .and l r =>
    match TimeBound.fromPredicate l, TimeBound.fromPredicate r with
    | some a, some b => some (a.combine b)
    | _, _ => none
  | .or _ _ => none

/-- Membership of a time in a TimeBound, read off the interval stated by the
source's doc comment on TimeBound: min < time <= max, with a missing
endpoint imposing no constraint. -/
def TimeBound.holdsAt (b : TimeBound) (time : Nat) : Bool :=
  (match b.min with | some m => decide (m < time) | none => true) &&
    (match b.max with | some m => decide (time ≤ m) | none => true)

/-- ColumnName of src/src/data.rs lines 77-81. -/
structure ColumnName where
  table : String
  column : String
deriving DecidableEq, Repr

/-- ColumnName::id of src/src/data.rs lines 91-94. -/
def ColumnName.id (n : ColumnName) : ColumnName :=
  { table := n.table, column := "id" }

/-- ColumnType of src/src/data.rs lines 102-107. -/
inductive ColumnType where
  | bool
  | int
  | string
deriving DecidableEq, Repr

/-- Datum of src/src/data.rs lines 31-36. -/
structure Datum (T : Type) where
  id : Nat
  value : T
  time : Nat
deriving DecidableEq, Repr

/-- GenericDatum of src/src/data.rs lines 54-59. -/
structure GenericDatum where
  id : Nat
  value : Value
  time : Nat
deriving DecidableEq, Repr

/-- Data of src/src/data.rs lines 109-114: a typed vector of datums. -/
inductive Data where
  | bool (l : List (Datum Bool))
  | int (l : List (Datum Nat))
  | string (l : List (Datum String))
deriving DecidableEq, Repr

/-- Data::get of src/src/data.rs lines 117-140. -/
def Data.get : Data → Nat → Option GenericDatum
  | .bool l, i => (l.get? i).map (fun d => { id := d.id, value := .bool d.value, time := d.time })
  | .int l, i => (l.get? i).map (fun d => { id := d.id, value := .int d.value, time := d.time })
  | .string l, i => (l.get? i).map (fun d => { id := d.id, value := .string d.value, time := d.time })

/-- Data::len of src/src/data.rs lines 142-148. -/
def Data.len : Data → Nat
  | .bool l => l.length
  | .int l => l.length
  | .string l => l.length

/-- Stable insertion of a datum into a time-sorted list: the new datum goes
after every datum whose time is less than or equal to its own. -/
def insertByTime {T : Type} (d : Datum T) : List (Datum T) → List (Datum T)
  | [] => [d]
  | e :: l => if e.time ≤ d.time then e :: insertByTime d l else d :: e :: l

/-- Stable sort of a datum list by ascending time.  Rust's sort_by (used in
src/src/data.rs lines 150-160 with the time comparator) is a stable sort, so
it produces exactly the stable sorted permutation computed here. -/
def sortByTime {T : Type} (l : List (Datum T)) : List (Datum T) :=
  l.foldl (fun acc d => insertByTime d acc) []

/-- Data::sort of src/src/data.rs lines 150-160. -/
def Data.sort : Data → Data
  | .bool l => .bool (sortByTime l)
  | .int l => .int (sortByTime l)
  | .string l => .string (sortByTime l)

/-- Times of the datums of a column, in sequence order. -/
def Data.times : Data → List Nat
  | .bool l => l.map Datum.time
  | .int l => l.map Datum.time
  | .string l => l.map Datum.time

/-- Ids of the datums of a column, in sequence order. -/
def Data.datumIds : Data → List Nat
  | .bool l => l.map Datum.id
  | .int l => l.map Datum.id
  | .string l => l.map Datum.id

/-- Error enum of src/src/data.rs lines 163-171 (the io/codec variants carry
no information the store semantics depends on and are omitted: no modelled
operation produces them). -/
inductive DbError where
  | nameAlreadyTake (n : ColumnName)
  | nameNotFound (n : ColumnName)
  | parseError (n : ColumnName) (t : ColumnType)
deriving DecidableEq, Repr

/-- Column of src/src/data.rs lines 175-180.  The [usize; 5] time index is a
five-element list. -/
structure Column where
  name : ColumnName
  data : Data
  time_index : Option (List Nat)
deriving DecidableEq, Repr

/-- Column::new of src/src/data.rs lines 183-194. -/
def Column.new (name : ColumnName) (t : ColumnType) : Column :=
  { name := name,
    data := match t with
      | .bool => .bool []
      | .int => .int []
      | .string => .string [],
    time_index := none }

/-- Column::sort of src/src/data.rs lines 196-198. -/
def Column.sortCol (c : Column) : Column :=
  { c with data := c.data.sort }

/-- Column::index_by_time of src/src/data.rs lines 200-215: columns shorter
than 5 keep their previous index; otherwise the sample is taken at
increment * i for increment = len / 5.  The unwrap on data.get is in
bounds there, so the getD default is never consulted. -/
def Column.indexByTime (c : Column) : Column :=
  if c.data.len < 5 then c
  else
    let sample := (List.range 5).map
      (fun i => ((c.data.get (c.data.len / 5 * i)).map GenericDatum.time).getD 0)
    { c with time_index := some sample }

/-- Rust bool::from_str: exactly the strings true and false parse. -/
def parseBool (s : String) : Option Bool :=
  if s = "true" then some true else if s = "false" then some false else none

/-- Rust usize::from_str on 64-bit: an optional leading plus sign, then one
or more ascii digits, value below 2 ^ 64. -/
def parseUsize (s : String) : Option Nat :=
  let chars := match s.toList with
    | '+' :: rest => rest
    | cs => cs
  if chars = [] then none
  else if chars.all Char.isDigit then
    let v := chars.foldl (fun a c => a * 10 + (c.toNat - 48)) 0
    if v < USIZE then some v else none
  else none

/-- Column::add_datum of src/src/data.rs lines 217-234, with the mutation
made explicit: the pair holds the error (if any) next to the column state,
which is unchanged whenever an error is returned. -/
def Column.addDatum (c : Column) (id : Nat) (value : String) (time : Nat) :
    Option DbError × Column :=
  match c.data with
  | .bool l =>
    match parseBool value with
    | some v => (none, { c with data := .bool (l ++ [{ id := id, value := v, time := time }]) })
    | none => (some (.parseError c.name .bool), c)
  | .int l =>
    match parseUsize value with
    | some v => (none, { c with data := .int (l ++ [{ id := id, value := v, time := time }]) })
    | none => (some (.parseError c.name .int), c)
  | .string l =>
    (none, { c with data := .string (l ++ [{ id := id, value := value, time := time }]) })

/-- Association-list lookup, modelling HashMap::get. -/
def lookupA {κ α : Type} [DecidableEq κ] (l : List (κ × α)) (k : κ) : Option α :=
  (l.find? (fun p => p.1 = k)).map (fun p => p.2)

/-- Association-list insert, modelling HashMap::insert: replaces the value
of an existing key, otherwise appends the binding. -/
def insertA {κ α : Type} [DecidableEq κ] (l : List (κ × α)) (k : κ) (a : α) : List (κ × α) :=
  if (l.find? (fun p => p.1 = k)).isSome then
    l.map (fun p => if p.1 = k then (k, a) else p)
  else l ++ [(k, a)]

/-- Db of src/src/data.rs lines 237-242.  The per-table id HashSet is a
duplicate-free list of usize. -/
structure Db where
  cols : List (ColumnName × Column)
  ids : List (String × List Nat)
  entity_count : Nat
deriving DecidableEq, Repr

/-- Db::new of src/src/data.rs lines 245-251. -/
def Db.new : Db :=
  { cols := [], ids := [], entity_count := 0 }

/-- Insertion into a HashSet of usize modelled as a duplicate-free list. -/
def idsInsert (l : List Nat) (n : Nat) : List Nat :=
  if n ∈ l then l else l ++ [n]

/-- Db::next_id of src/src/data.rs lines 276-284: returns entity_count,
increments it and records the id in the table's id set.  The expect on an
unknown table is modelled as none. -/
def Db.nextId (db : Db) (table : String) : Option (Nat × Db) :=
  match lookupA db.ids table with
  | none => none
  | some ids =>
    some (db.entity_count,
      { db with
          ids := insertA db.ids table (idsInsert ids db.entity_count),
          entity_count := db.entity_count + 1 })

/-- Db::add_column of src/src/data.rs lines 286-295: rejects a duplicate
name, otherwise stores a fresh column and unconditionally installs a fresh
empty id set for the column's table. -/
def Db.addColumn (db : Db) (name : ColumnName) (t : ColumnType) : Except DbError Db :=
  match lookupA db.cols name with
  | some _ => .error (.nameAlreadyTake name)
  | none =>
    .ok { db with
            cols := insertA db.cols name (Column.new name t),
            ids := insertA db.ids name.table [] }

/-- Db::add_datum of src/src/data.rs lines 297-304 in state-passing form:
the in-place mutation of the looked-up column happens only when
Column::add_datum succeeds, so on any error the store is returned as it
was. -/
def Db.addDatum (db : Db) (name : ColumnName) (id : Nat) (value : String) (time : Nat) :
    Option DbError × Db :=
  match lookupA db.cols name with
  | none => (some (.nameNotFound name), db)
  | some col =>
    match col.addDatum id value time with
    | (some e, _) => (some e, db)
    | (none, col2) => (none, { db with cols := insertA db.cols name col2 })

/-- Per-column body of Db::optimize_columns: col.sort() then
col.index_by_time(). -/
def Column.optimizeStep (c : Column) : Column :=
  (c.sortCol).indexByTime

/-- Db::optimize_columns of src/src/data.rs lines 306-312. -/
def Db.optimizeColumns (db : Db) : Db :=
  { db with cols := db.cols.map (fun p => (p.1, p.2.optimizeStep)) }

/-- Schema of src/src/insert.rs lines 29-34, after from_raw validation has
qualified the column names. -/
structure Schema where
  table : String
  columns : List (ColumnName × ColumnType)
  csv_ordering : List ColumnName
deriving DecidableEq, Repr

/-- Schema::column_index of src/src/insert.rs lines 71-73. -/
def Schema.columnIndex (s : Schema) (col : String) : Option Nat :=
  s.csv_ordering.findIdx? (fun c => c.column = col)

/-- Inner loop of add_to_db over one CSV row: pairs the csv_ordering with
the row's fields and appends one datum per pair; the expect on a failed
add_datum aborts the ingest (modelled as none). -/
def addRowDatums (db : Db) (ordering : List ColumnName) (row : List String)
    (id : Nat) (time : Nat) : Option Db :=
  (ordering.zip row).foldl
    (fun acc p =>
      match acc with
      | none => none
      | some d =>
        match Db.addDatum d p.1 id p.2 time with
        | (some _, _) => none
        | (none, d2) => some d2)
    (some db)

/-- Column-creation loop of add_to_db: every schema column is added, a
failure aborting the ingest. -/
def addSchemaColumns (db : Db) (columns : List (ColumnName × ColumnType)) : Option Db :=
  columns.foldl
    (fun acc p =>
      match acc with
      | none => none
      | some d =>
        match Db.addColumn d p.1 p.2 with
        | .error _ => none
        | .ok d2 => some d2)
    (some db)

/-- add_to_db of src/src/insert.rs lines 105-135, acting on an already
loaded store and already parsed CSV rows; the final write to disk is
outside the store semantics.  Every unwrap / expect of the source is an
abort, modelled as none. -/
def addToDb (db : Db) (schema : Schema) (rows : List (List String)) : Option Db :=
  match schema.columnIndex "id", schema.columnIndex "time" with
  | some idIndex, some timeIndex =>
    match addSchemaColumns db schema.columns with
    | none => none
    | some db1 =>
      let loaded := rows.foldl
        (fun acc row =>
          match acc with
          | none => none
          | some d =>
            match (row.get? idIndex).bind parseUsize, (row.get? timeIndex).bind parseUsize with
            | some id, some time => addRowDatums d schema.csv_ordering row id time
            | _, _ => none)
        (some db1)
      loaded.map Db.optimizeColumns
  | _, _ => none

/-- Entry of src/src/main.rs lines 70-74, the datum type the executor of
src/src/exec.rs operates on (eid / value / time). -/
structure Entry (T : Type) where
  eid : Nat
  value : T
  time : Nat
deriving DecidableEq, Repr

/-- Entries, the typed column payload used by src/src/exec.rs (defined as in
src/src/main.rs lines 122-126). -/
inductive Entries where
  | bool (l : List (Entry Bool))
  | int (l : List (Entry Nat))
  | string (l : List (Entry String))
deriving DecidableEq, Repr

/-- Entity-id sets of the executor: HashSet of usize. -/
abbrev Eids := Finset Nat

/-- Implicit id column of a table, as exec.rs calls it (name.eid()); it
coincides with ColumnName::id of data.rs. -/
def ColumnName.eid (n : ColumnName) : ColumnName :=
  ColumnName.id n

/-- Column as the executor sees it: a name and its typed entries. -/
structure ColumnE where
  name : ColumnName
  entries : Entries
deriving DecidableEq, Repr

/-- The read-only store the executor runs against: the cols and per-table
eids maps of the Db, as functions because the executor only ever reads
them. -/
structure DbE where
  cols : ColumnName → Option ColumnE
  eids : String → Option Eids

/-- QueryNode as consumed by src/src/exec.rs find_entries (Select / Join /
Where / Empty). -/
inductive QueryNode where
  | selectQ (n : ColumnName) (limit : Nat)
  | joinQ (l : ColumnName) (r : ColumnName)
  | whereQ (n : ColumnName) (p : Predicate)
  | emptyQ
deriving DecidableEq, Repr

/-- Filtered of src/src/exec.rs lines 39-43. -/
inductive Filtered where
  | eids (e : Eids)
  | entries (e : Entries)
deriving DecidableEq

/-- Error enum of src/src/exec.rs lines 45-49. -/
inductive ExecError where
  | missingColumn (n : ColumnName)
  | invalidJoin (n : ColumnName)
deriving DecidableEq, Repr

/-- Result of running a piece of the executor: a value, a returned error,
or a process abort (a Rust panic, e.g. an unwrap of an Err). -/
inductive Outcome (ε α : Type) where
  | ok (a : α)
  | err (e : ε)
  | aborted
deriving DecidableEq, Repr

/-- Cache of src/src/exec.rs lines 8-11: the id-set overlay on top of the
store's per-table eids. -/
structure Cache where
  db : DbE
  map : ColumnName → Option Eids

/-- Cache::new of src/src/exec.rs lines 14-19. -/
def Cache.new (db : DbE) : Cache :=
  { db := db, map := fun _ => none }

/-- Cache::get of src/src/exec.rs lines 21-28: overlay first, then the
table's full eid set. -/
def Cache.get (c : Cache) (n : ColumnName) : Option Eids :=
  match c.map n with
  | some e => some e
  | none => c.db.eids n.table

/-- Cache::insert_or_merge of src/src/exec.rs lines 30-36: intersects with
an existing overlay entry, then stores. -/
def Cache.insertOrMerge (c : Cache) (name : ColumnName) (eids : Eids) : Cache :=
  { c with map := fun n =>
      if n = name then
        some (match c.map name with
          | some s => eids ∩ s
          | none => eids)
      else c.map n }

/-- One typed arm of match_by_predicates: fold over the entry list keeping
the eids whose value passes the predicate. -/
def matchEntryList {T : Type} (f : T → Value) (l : List (Entry T)) (p : Predicate) : Eids :=
  l.foldl (fun acc e => if p.test (f e.value) then insert e.eid acc else acc) ∅

/-- match_by_predicates of src/src/exec.rs lines 51-79. -/
def matchByPredicates (es : Entries) (p : Predicate) : Eids :=
  match es with
  | .bool l => matchEntryList Value.bool l p
  | .int l => matchEntryList Value.int l p
  | .string l => matchEntryList Value.string l p

/-- match_by_eids of src/src/exec.rs lines 81-89. -/
def matchByEids (l : List (Entry Nat)) (eids : Eids) : Eids :=
  l.foldl (fun acc e => if e.value ∈ eids then insert e.eid acc else acc) ∅

/-- clone_matching_entries of src/src/exec.rs lines 91-97. -/
def cloneMatchingEntries {T : Type} (l : List (Entry T)) (eids : Eids) (limit : Nat) :
    List (Entry T) :=
  (l.filter (fun e => e.eid ∈ eids)).take limit

/-- find_entries_by_set of src/src/exec.rs lines 99-107. -/
def findEntriesBySet (es : Entries) (eids : Eids) (limit : Nat) : Entries :=
  match es with
  | .bool l => .bool (cloneMatchingEntries l eids limit)
  | .int l => .int (cloneMatchingEntries l eids limit)
  | .string l => .string (cloneMatchingEntries l eids limit)

/-- find_entries of src/src/exec.rs lines 109-139.  The panic on an Empty
node is an abort. -/
def findEntries (db : DbE) (cache : Cache) (node : QueryNode) :
    Outcome ExecError (ColumnName × Filtered) :=
  match node with
  | .selectQ name limit =>
    match cache.get name.eid with
    | none => .err (.missingColumn name.eid)
    | some eids =>
      match db.cols name with
      | none => .err (.missingColumn name)
      | some column => .ok (name, .entries (findEntriesBySet column.entries eids limit))
  | .joinQ left right =>
    match cache.get left with
    | none => .err (.missingColumn left)
    | some eids =>
      match db.cols right with
      | none => .err (.missingColumn right)
      | some column =>
        match column.entries with
        | .int entries => .ok (right.eid, .eids (matchByEids entries eids))
        | _ => .err (.invalidJoin right)
  | .whereQ left preds =>
    match db.cols left with
    | none => .err (.missingColumn left)
    | some column => .ok (left.eid, .eids (matchByPredicates column.entries preds))
  | .emptyQ => .aborted

/-- Projection of an ok node result. -/
def Outcome.getOk {ε α : Type} : Outcome ε α → Option α
  | .ok a => some a
  | _ => none

/-- Test for an ok node result. -/
def Outcome.isOk {ε α : Type} : Outcome ε α → Bool
  | .ok _ => true
  | _ => false

/-- exec_stage of src/src/exec.rs lines 141-160: every node of the stage is
evaluated against the stage-entry cache in its own task, and each task
unwraps the Result of find_entries, so any per-node error (or panic)
aborts the process; only when every node succeeds does the stage return,
with Ok of all results.  The arrival order of the results on the channel
is a permutation of the node order; it is applied by the caller (see
execSched). -/
def execStage (db : DbE) (cache : Cache) (stage : List QueryNode) :
    Outcome ExecError (List (ColumnName × Filtered)) :=
  let rs := stage.map (findEntries db cache)
  if rs.all Outcome.isOk then .ok (rs.filterMap Outcome.getOk) else .aborted

/-- One step of the result-merging loop of exec (src/src/exec.rs lines
168-175): an id set is intersected into the cache, a materialized column
slice is appended to the result list. -/
def applyItem (st : Cache × List (ColumnName × Entries)) (it : ColumnName × Filtered) :
    Cache × List (ColumnName × Entries) :=
  match it.2 with
  | .eids e => (st.1.insertOrMerge it.1 e, st.2)
  | .entries es => (st.1, st.2 ++ [(it.1, es)])

/-- An intra-stage schedule: the order in which the stage's task results
come off the channel, as a reordering of the result list. -/
abbrev StageOrder := List (ColumnName × Filtered) → List (ColumnName × Filtered)

/-- Stage loop of exec (src/src/exec.rs lines 162-178), parametrised by the
per-stage arrival orders; an exhausted schedule list means channel order =
node order. -/
def execLoop (db : DbE) : Cache → List (ColumnName × Entries) → List (List QueryNode) →
    List StageOrder → Outcome ExecError (List (ColumnName × Entries))
  | _, result, [], _ => .ok result
  | cache, result, stage :: rest, scheds =>
    match execStage db cache stage with
    | .aborted => .aborted
    | .err e => .err e
    | .ok items =>
      let ordered := match scheds with
        | [] => items
        | f :: _ => f items
      let st := ordered.foldl applyItem (cache, result)
      execLoop db st.1 st.2 rest scheds.tail

/-- exec of src/src/exec.rs lines 162-178 with explicit intra-stage arrival
orders. -/
def execSched (db : DbE) (stages : List (List QueryNode)) (scheds : List StageOrder) :
    Outcome ExecError (List (ColumnName × Entries)) :=
  execLoop db (Cache.new db) [] stages scheds

/-- exec with results collected in node order. -/
def exec (db : DbE) (stages : List (List QueryNode)) :
    Outcome ExecError (List (ColumnName × Entries)) :=
  execSched db stages []

/-- Equivalence of two executor outcomes up to the order of the returned
list: both abort, or both fail with the same error, or both succeed with
the same multiset of (name, slice) pairs. -/
def outcomePerm {ε α : Type} : Outcome ε (List α) → Outcome ε (List α) → Prop
  | .ok a, .ok b => a.Perm b
  | .err e, .err f => e = f
  | .aborted, .aborted => True
  | _, _ => False

/-- QueryLine of src/src/plan.rs lines 67-73. -/
inductive QueryLine where
  | selectL (cols : List ColumnName)
  | joinL (table : String) (col : ColumnName)
  | whereL (col : ColumnName) (p : Predicate)
  | limitL (n : Nat)
deriving DecidableEq, Repr

/-- PlanNode of src/src/plan.rs lines 120-126. -/
inductive PlanNode where
  | selectP (n : ColumnName) (limit : Nat)
  | joinP (l : ColumnName) (r : ColumnName)
  | whereP (n : ColumnName) (p : Predicate) (b : Option TimeBound)
  | whereIdP (n : ColumnName) (ids : List Nat)
deriving DecidableEq, Repr

/-- Select test on a plan node. -/
def PlanNode.isSelect : PlanNode → Bool
  | .selectP _ _ => true
  | _ => false

/-- extract_ids of src/src/plan.rs lines 157-171. -/
def extractIds : Predicate → Option (List Nat)
  | .constant c v =>
    match c, v with
    | .equal, .int n => some [n]
    | _, _ => none
  | .or l r =>
    match extractIds l, extractIds r with
    | some a, some b => some (a ++ b)
    | _, _ => none
  | .and _ _ => none

/-- A graph vertex before edges are added: the plan node with its requires
and provides column names (src/src/plan.rs lines 154-155). -/
abbrev NodeTriple := PlanNode × Option ColumnName × Option ColumnName

/-- Node built by parse_line for a Where line: a Where on the implicit id
column whose predicate is an equality disjunction becomes WhereId. -/
def whereNodeFor (left : ColumnName) (pred : Predicate) : PlanNode :=
  if left = left.id then
    match extractIds pred with
    | some ids => PlanNode.whereIdP left ids
    | none => PlanNode.whereP left pred none
  else PlanNode.whereP left pred none

/-- parse_line of src/src/plan.rs lines 173-205. -/
def parseLine (line : QueryLine) (limit : Nat) : List NodeTriple :=
  match line with
  | .selectL cols =>
    cols.map (fun col => (PlanNode.selectP col limit, some col.id, none))
  | .whereL left pred =>
    [(whereNodeFor left pred, none, some left.id)]
  | .joinL left right =>
    let leftId : ColumnName := { table := left, column := "id" }
    [(PlanNode.joinP leftId right, some leftId, some right.id)]
  | .limitL _ => []

/-- Limit folding of build_graph (src/src/plan.rs lines 346-351): the last
Limit line wins, default 20. -/
def foldLimit (lines : List QueryLine) : Nat :=
  lines.foldl
    (fun acc l =>
      match l with
      | .limitL n => n
      | _ => acc)
    20

/-- Vertex list of build_graph of src/src/plan.rs lines 343-372. -/
def buildNodes (lines : List QueryLine) : List NodeTriple :=
  ((lines.map (fun l => parseLine l (foldLimit lines))).flatten)

/-- Edge relation of build_graph: an edge i -> j whenever what i requires is
what j provides (the double loop of src/src/plan.rs lines 358-369, which
also admits i = j). -/
def hasEdge (ns : List NodeTriple) (i j : Nat) : Bool :=
  match ns[i]?, ns[j]? with
  | some a, some b =>
    match a.2.1, b.2.2 with
    | some r, some p => decide (r = p)
    | _, _ => false
  | _, _ => false

/-- Successors of a vertex along outgoing edges (petgraph's default
neighbor direction, followed by the Dfs). -/
def outNbrs (ns : List NodeTriple) (i : Nat) : List Nat :=
  (List.range ns.length).filter (fun j => hasEdge ns i j)

/-- Sources of the incoming edges of a vertex:
graph.neighbors_directed(node, EdgeDirection::Incoming). -/
def inNbrs (ns : List NodeTriple) (j : Nat) : List Nat :=
  (List.range ns.length).filter (fun i => hasEdge ns i j)

/-- graph.externals(EdgeDirection::Incoming): vertices with no incoming
edge, in index order. -/
def externals (ns : List NodeTriple) : List Nat :=
  (List.range ns.length).filter (fun i => decide (inNbrs ns i = []))

/-- petgraph Dfs (used by build_stages, src/src/plan.rs lines 377-379): pop
a vertex, skip it if already discovered, otherwise visit it and push its
undiscovered successors.  The fuel argument only bounds the iteration
count; one discovery or one pop happens per unit, so any fuel of at least
stack length plus (vertex count) * (1 + max out-degree) runs the stack
dry. -/
def dfsVisits (ns : List NodeTriple) : Nat → List Nat → List Nat → List Nat
  | 0, _, _ => []
  | _ + 1, [], _ => []
  | fuel + 1, v :: rest, disc =>
    if v ∈ disc then dfsVisits ns fuel rest disc
    else v :: dfsVisits ns fuel (((outNbrs ns v).filter (fun u => u ∉ disc)) ++ rest) (v :: disc)

/-- Insertion into a Stage's HashSet of plan nodes (src/src/plan.rs lines
229-231), modelled as a duplicate-free list. -/
def stageInsert (nd : PlanNode) (s : List PlanNode) : List PlanNode :=
  if nd ∈ s then s else s ++ [nd]

/-- Plan::find_stage_index of src/src/plan.rs lines 516-523: the first stage
containing the node value. -/
def findStageIndex : List (List PlanNode) → PlanNode → Option Nat
  | [], _ => none
  | s :: rest, nd =>
    if nd ∈ s then some 0
    else (findStageIndex rest nd).map (fun i => i + 1)

/-- Stage index chosen by the while-let loop of build_stages (src/src/plan.rs
lines 380-390): one past the deepest stage holding a node that requires
this vertex's output (max_depth starts at -1). -/
def visitStageIndex (ns : List NodeTriple) (stages : List (List PlanNode)) (v : Nat) : Nat :=
  (((inNbrs ns v).foldl
      (fun acc u =>
        match (ns[u]? : Option NodeTriple) with
        | some tu =>
          match findStageIndex stages tu.1 with
          | some i => max acc (i : Int)
          | none => acc
        | none => acc)
      (-1)) + 1).toNat

/-- Stage update of build_stages (src/src/plan.rs lines 392-395): push a
fresh stage when the index is past the end, then insert the node value at
the index. -/
def stagePlace (stages : List (List PlanNode)) (si : Nat) (nd : PlanNode) :
    List (List PlanNode) :=
  if stages.length ≤ si then
    (stages ++ [[]]).set si (stageInsert nd ((stages ++ [[]]).getD si []))
  else stages.set si (stageInsert nd (stages.getD si []))

/-- Body of the while-let loop of build_stages (src/src/plan.rs lines
379-396) for one visited vertex. -/
def stageVisit (ns : List NodeTriple) (stages : List (List PlanNode)) (v : Nat) :
    List (List PlanNode) :=
  match ns[v]? with
  | none => stages
  | some t => stagePlace stages (visitStageIndex ns stages v) t.1

/-- Plan::build_stages of src/src/plan.rs lines 374-401 on a built vertex
list: one fresh Dfs per external vertex, staging every visited vertex,
then the stage list is reversed so producers come first.  (The fuel bounds
the Dfs iteration count; at most 1 + n * outdeg ≤ 1 + n * n pops ever
happen, so the stack always runs dry within it.) -/
def stageAll (ns : List NodeTriple) : List (List PlanNode) :=
  ((externals ns).foldl
      (fun stages e =>
        (dfsVisits ns (ns.length * ns.length + 1) [e] []).foldl (stageVisit ns) stages)
      []).reverse

/-- Plan::build_stages applied to the graph of build_graph. -/
def buildStages (lines : List QueryLine) : List (List PlanNode) :=
  stageAll (buildNodes lines)

/-- Error enum of src/src/plan.rs lines 287-294 (the grammar parse variant
is outside the modelled planner). -/
inductive PlanError where
  | noStages
  | emptyStages
  | invalidStageOrder
  | emptyNodeInStages
deriving DecidableEq, Repr

/-- Numeric node type of Plan::stage_query_types, src/src/plan.rs lines
498-514. -/
def nodeType : PlanNode → Nat
  | .selectP _ _ => 1
  | .joinP _ _ => 2
  | .whereP _ _ _ => 3
  | .whereIdP _ _ => 4

/-- Index loop of Plan::is_valid (src/src/plan.rs lines 325-338) over the
stage type sets, returning the first violation. -/
def stageTypeError (stages : List (List PlanNode)) : Option PlanError :=
  let sqt := stages.map (fun s => s.map nodeType)
  let n := sqt.length
  (List.range n).findSome?
    (fun i =>
      let types := sqt.getD i []
      if types.contains 0 then some .emptyNodeInStages
      else if i = n - 1 ∧ (types.contains 2 ∨ types.contains 3 ∨ types.contains 4) then
        some .invalidStageOrder
      else if i < n - 1 ∧ types.contains 1 then some .invalidStageOrder
      else none)

/-- Plan::is_valid of src/src/plan.rs lines 313-341. -/
def isValid (stages : List (List PlanNode)) : Except PlanError Unit :=
  if stages.length = 0 then .error .noStages
  else if stages.any (fun s => s.isEmpty) then .error .emptyStages
  else
    match stageTypeError stages with
    | some e => .error e
    | none => .ok ()

/-- Modelled from the spec's words for claim C7: the five-point sample with
positions floor(i * len / 5), taken on the (sorted) datum sequence, and no
sample below length 5.  This is the claim-side formula, to be compared
with Column.indexByTime, whose positions are (len / 5) * i. -/
def specTimeSample (d : Data) : Option (List Nat) :=
  if 5 ≤ d.len then
    some ((List.range 5).map (fun i => ((d.get (i * d.len / 5)).map GenericDatum.time).getD 0))
  else none

/-- Column name t.v of the concrete test tables. -/
def cnTV : ColumnName := { table := "t", column := "v" }

/-- Column name t.id of the concrete test tables. -/
def cnTId : ColumnName := { table := "t", column := "id" }

/-- Column name t.time of the concrete test tables. -/
def cnTTime : ColumnName := { table := "t", column := "time" }

/-- Column name u.x of the concrete test tables. -/
def cnUX : ColumnName := { table := "u", column := "x" }

/-- Ingest schema for the C2 evidence: table t with the auto-injected id
and time columns only. -/
def schemaT : Schema :=
  { table := "t",
    columns := [(cnTId, .int), (cnTTime, .int)],
    csv_ordering := [cnTId, cnTTime] }

/-- One-row CSV for the C2 evidence: id 1 at time 100. -/
def rowsT : List (List String) := [["1", "100"]]

/-- Executor store with no columns and no id sets (C3 evidence). -/
def dbEmptyE : DbE :=
  { cols := fun _ => none, eids := fun _ => none }

/-- Single-stage plan whose only node scans the absent column t.v (C3
evidence). -/
def planC3 : List (List QueryNode) :=
  [[QueryNode.whereQ cnTV (.constant .equal (.int 1))]]

/-- Integer column t.v holding two datums for the same entity id 1, with
values 10 and 20 (C4 counterexample input). -/
def colTwoPerId : ColumnE :=
  { name := cnTV,
    entries := .int [{ eid := 1, value := 10, time := 0 }, { eid := 1, value := 20, time := 0 }] }

/-- Executor store holding only the column t.v of colTwoPerId. -/
def dbC4 : DbE :=
  { cols := fun n => if n = cnTV then some colTwoPerId else none,
    eids := fun _ => none }

/-- Predicate v = 10. -/
def predEq10 : Predicate := .constant .equal (.int 10)

/-- Predicate v = 20. -/
def predEq20 : Predicate := .constant .equal (.int 20)

/-- Plan with the two Where nodes on t.v kept separate, then a Select of
t.v (C4 counterexample). -/
def planSeparate : List (List QueryNode) :=
  [[QueryNode.whereQ cnTV predEq10, QueryNode.whereQ cnTV predEq20],
   [QueryNode.selectQ cnTV 10]]

/-- Plan with the two Where nodes fused by the optimizer into one And
predicate (C4 counterexample). -/
def planFused : List (List QueryNode) :=
  [[QueryNode.whereQ cnTV (.and predEq10 predEq20)],
   [QueryNode.selectQ cnTV 10]]

/-- Executor store for the C5 witness: t.v with two entities and t.id style
eids present. -/
def dbC5 : DbE :=
  { cols := fun n =>
      if n = cnTV then
        some { name := cnTV,
               entries := .int [{ eid := 1, value := 10, time := 0 },
                                { eid := 2, value := 20, time := 0 }] }
      else none,
    eids := fun t => if t = "t" then some {1, 2} else none }

/-- Two-node stage plus a Select stage, for the C5 witness. -/
def planC5 : List (List QueryNode) :=
  [[QueryNode.whereQ cnTV (.constant .greater (.int 5)),
    QueryNode.whereQ cnTV (.constant .less (.int 15))],
   [QueryNode.selectQ cnTV 10]]

/-- Seven-datum integer column with times 0..6 (C7 counterexample input):
length 7 makes the source sample positions 0,1,2,3,4 but the claim formula
positions 0,1,2,4,5. -/
def col7 : Column :=
  { name := cnTV,
    data := .int ((List.range 7).map (fun i => { id := i, value := 0, time := i })),
    time_index := none }

/-- Query lines of the C8 counterexample: a select of t.v next to a where
on the unrelated table u; both vertices are externals, land in the single
stage together, and is_valid rejects the plan. -/
def linesC8 : List QueryLine :=
  [.selectL [cnTV], .whereL cnUX (.constant .greater (.int 5))]

/-- Query lines of the C8 witness: a select of t.v over a where on t.v. -/
def linesC8W : List QueryLine :=
  [.selectL [cnTV], .whereL cnTV (.constant .greater (.int 5))]

/-- The select triple produced by linesC8W. -/
def tripleC8W : NodeTriple := (PlanNode.selectP cnTV 20, some cnTId, none)

/-- Bool column t.v with one datum, used by the C9 and C10 witnesses. -/
def colW : Column :=
  { name := cnTV,
    data := .bool [{ id := 5, value := true, time := 0 }],
    time_index := none }

/-- Store with one Bool column t.v and a live id set for t, used by the C9
and C10 witnesses. -/
def dbW : Db :=
  { cols := [(cnTV, colW)],
    ids := [("t", [5])],
    entity_count := 6 }

/-- Eids of an entry list, in sequence order. -/
def Entries.eids : Entries → List Nat
  | .bool l => l.map Entry.eid
  | .int l => l.map Entry.eid
  | .string l => l.map Entry.eid

/-- Cache effect of one stage result (the Eids arm of the merge loop of
exec); a materialized slice leaves the cache alone. -/
def cacheMerge (c : Cache) (it : ColumnName × Filtered) : Cache :=
  match it.2 with
  | .eids e => c.insertOrMerge it.1 e
  | .entries _ => c

/-- Materialized slice carried by one stage result, if any. -/
def entriesOf (it : ColumnName × Filtered) : Option (ColumnName × Entries) :=
  match it.2 with
  | .entries e => some (it.1, e)
  | .eids _ => none

/-- Does the raw text fail to parse at the column's declared type
(Column::add_datum's error condition)? -/
def Column.parseFails (c : Column) (value : String) : Bool :=
  match c.data with
  | .bool _ => (parseBool value).isNone
  | .int _ => (parseUsize value).isNone
  | .string _ => false

/-- Declared type of a column, as reported in its ParseError. -/
def Column.declaredType (c : Column) : ColumnType :=
  match c.data with
  | .bool _ => .bool
  | .int _ => .int
  | .string _ => .string

/-- Two-entity integer entry list with distinct eids (C4 witness input). -/
def entriesW : Entries :=
  .int [{ eid := 1, value := 10, time := 0 }, { eid := 2, value := 20, time := 0 }]

/-- Time ordering on datums, the comparator Data::sort sorts by. -/
def timeLE {T : Type} (a b : Datum T) : Prop :=
  a.time ≤ b.time

/-- Wrapping subtraction agrees with truncated subtraction away from the
wrap-around point. -/
theorem usizeSub_one_eq (t : Nat) (h1 : 1 ≤ t) (h2 : t < USIZE) : usizeSub t 1 = t - 1 := by
  have hU : USIZE = 18446744073709551616 := by norm_num [USIZE]
  unfold usizeSub
  rw [hU] at h2 ⊢
  have hs : t + (18446744073709551616 - 1) = (t - 1) + 18446744073709551616 := by omega
  rw [hs, Nat.add_mod_right]
  exact Nat.mod_eq_of_lt (by omega)

/-- C1 (counterexample): the claim says every comparator returns false on a
cross-tag pair, but the derived PartialOrd orders Bool below Int, so the
Less comparator accepts (Bool true, Int 0). -/
theorem C1_counterexample :
    Comparator.test .less (Value.bool true) (Value.int 0) = true := by
  decide

/-- C1 (amended): on a cross-tag pair only Equal returns false
unconditionally; the four ordering comparators are decided purely by the
declaration order of the tags (Bool < Int < String), the payloads never
being consulted. -/
theorem C1_cross_tag (v w : Value) (h : v.tag ≠ w.tag) :
    Comparator.test .equal v w = false ∧
    Comparator.test .greater v w = decide (w.tag < v.tag) ∧
    Comparator.test .greaterOrEqual v w = decide (w.tag < v.tag) ∧
    Comparator.test .less v w = decide (v.tag < w.tag) ∧
    Comparator.test .lessOrEqual v w = decide (v.tag < w.tag) := by
  cases v <;> cases w <;>
    first
      | (exact absurd rfl h)
      | (refine ⟨?_, ?_, ?_, ?_, ?_⟩ <;>
          simp only [Comparator.test, Value.cmp, Value.tag] <;> rfl)

/-- Witness for C1_cross_tag at the pair (Bool true, Int 0). -/
theorem C1_cross_tag_witness :
    (Value.bool true).tag ≠ (Value.int 0).tag ∧
    (Comparator.test .equal (Value.bool true) (Value.int 0) = false ∧
      Comparator.test .greater (Value.bool true) (Value.int 0) =
        decide ((Value.int 0).tag < (Value.bool true).tag) ∧
      Comparator.test .greaterOrEqual (Value.bool true) (Value.int 0) =
        decide ((Value.int 0).tag < (Value.bool true).tag) ∧
      Comparator.test .less (Value.bool true) (Value.int 0) =
        decide ((Value.bool true).tag < (Value.int 0).tag) ∧
      Comparator.test .lessOrEqual (Value.bool true) (Value.int 0) =
        decide ((Value.bool true).tag < (Value.int 0).tag)) :=
  ⟨by decide, C1_cross_tag (Value.bool true) (Value.int 0) (by decide)⟩

/-- C6 (counterexample): the claim says a Where time predicate = t derives
the interval (t-1, t] for every unsigned t including 0, and t belongs to
that interval; but at t = 0 the usize subtraction wraps, the derived bound
is (2^64 - 1, 0], and 0 does not satisfy it. -/
theorem C6_counterexample :
    (TimeBound.fromPredicate (.constant .equal (.int 0))).map (fun b => b.holdsAt 0) =
      some false := by
  decide

/-- C6 (amended): for every constant time predicate over Int t with
1 <= t < 2^64 the derivation yields exactly the intervals of the claim;
at t = 0 the three t-1 endpoints wrap around instead. -/
theorem C6_bounds (t : Nat) (h1 : 1 ≤ t) (h2 : t < USIZE) :
    TimeBound.fromPredicate (.constant .equal (.int t)) =
      some { min := some (t - 1), max := some t } ∧
    TimeBound.fromPredicate (.constant .greater (.int t)) =
      some { min := some t, max := none } ∧
    TimeBound.fromPredicate (.constant .greaterOrEqual (.int t)) =
      some { min := some (t - 1), max := none } ∧
    TimeBound.fromPredicate (.constant .less (.int t)) =
      some { min := none, max := some (t - 1) } ∧
    TimeBound.fromPredicate (.constant .lessOrEqual (.int t)) =
      some { min := none, max := some t } := by
  refine ⟨?_, ?_, ?_, ?_, ?_⟩ <;>
    simp [TimeBound.fromPredicate, usizeSub_one_eq t h1 h2]

/-- Witness for C6_bounds at t = 1. -/
theorem C6_bounds_witness :
    1 ≤ 1 ∧ 1 < USIZE ∧
    TimeBound.fromPredicate (.constant .equal (.int 1)) =
      some { min := some 0, max := some 1 } := by
  refine ⟨le_refl 1, by norm_num [USIZE], ?_⟩
  have h := (C6_bounds 1 (le_refl 1) (by norm_num [USIZE])).1
  simpa using h

/-- C2 (evidence of the code bug): ingesting a one-row CSV into table t
succeeds, leaves the id column of t holding the datum with id 1, and
leaves the id set of t empty — the datum's id is not a member of the
table's id set, because add_to_db takes ids from the CSV and never
registers them (next_id is never called). -/
theorem C2_ingest_ids_empty :
    (addToDb Db.new schemaT rowsT).map (fun d => lookupA d.ids "t") = some (some []) ∧
    (addToDb Db.new schemaT rowsT).map
        (fun d => (lookupA d.cols cnTId).map (fun c => c.data.datumIds)) =
      some (some [1]) ∧
    (addToDb Db.new schemaT rowsT).map
        (fun d => (lookupA d.cols cnTTime).map (fun c => c.data.len)) =
      some (some 1) := by
  refine ⟨?_, ?_, ?_⟩ <;> decide

/-- C3 (evidence of the code bug): a stage node that fails with
MissingColumn makes the executor abort (the task unwraps the Err), so exec
ends in a panic, never in the Err value the claim promises. -/
theorem C3_error_aborts : exec dbEmptyE planC3 = Outcome.aborted := by
  decide

/-- C4 (counterexample): on a column holding two datums for the same entity
id, the plan with the fused And-predicate returns a different result from
the plan with the two separate Where nodes whose id sets the cache
intersects. -/
theorem C4_counterexample : exec dbC4 planFused ≠ exec dbC4 planSeparate := by
  decide

/-- Membership in the predicate-scan fold of match_by_predicates. -/
theorem mem_matchFold {T : Type} (f : T → Value) (p : Predicate) (l : List (Entry T)) :
    ∀ (acc : Eids) (x : Nat),
      x ∈ l.foldl (fun acc e => if p.test (f e.value) then insert e.eid acc else acc) acc ↔
        x ∈ acc ∨ ∃ e ∈ l, e.eid = x ∧ p.test (f e.value) = true := by
  induction l with
  | nil => simp
  | cons e es ih =>
    intro acc x
    simp only [List.foldl_cons]
    by_cases he : p.test (f e.value) = true
    · rw [if_pos he, ih]
      simp only [Finset.mem_insert, List.mem_cons]
      constructor
      · rintro ((rfl | hacc) | ⟨e2, h2, rfl, ht⟩)
        · exact Or.inr ⟨e, Or.inl rfl, rfl, he⟩
        · exact Or.inl hacc
        · exact Or.inr ⟨e2, Or.inr h2, rfl, ht⟩
      · rintro (hacc | ⟨e2, (rfl | h2), rfl, ht⟩)
        · exact Or.inl (Or.inr hacc)
        · exact Or.inl (Or.inl rfl)
        · exact Or.inr ⟨e2, h2, rfl, ht⟩
    · rw [if_neg he, ih]
      simp only [List.mem_cons]
      constructor
      · rintro (hacc | ⟨e2, h2, rfl, ht⟩)
        · exact Or.inl hacc
        · exact Or.inr ⟨e2, Or.inr h2, rfl, ht⟩
      · rintro (hacc | ⟨e2, (rfl | h2), rfl, ht⟩)
        · exact Or.inl hacc
        · exact absurd ht he
        · exact Or.inr ⟨e2, h2, rfl, ht⟩

/-- Membership in one typed arm of match_by_predicates: exactly the eids of
entries whose value passes the predicate. -/
theorem mem_matchEntryList {T : Type} (f : T → Value) (l : List (Entry T)) (p : Predicate)
    (x : Nat) :
    x ∈ matchEntryList f l p ↔ ∃ e ∈ l, e.eid = x ∧ p.test (f e.value) = true := by
  unfold matchEntryList
  rw [mem_matchFold]
  simp

/-- In a list of entries with duplicate-free eids, the entry with a given
eid is unique. -/
theorem eq_of_nodup_eids {T : Type} (l : List (Entry T)) (h : (l.map Entry.eid).Nodup) :
    ∀ e1 ∈ l, ∀ e2 ∈ l, e1.eid = e2.eid → e1 = e2 := by
  induction l with
  | nil => simp
  | cons a as ih =>
    simp only [List.map_cons, List.nodup_cons] at h
    obtain ⟨hna, hnd⟩ := h
    intro e1 h1 e2 h2 heq
    rcases List.mem_cons.mp h1 with rfl | h1m
    · rcases List.mem_cons.mp h2 with rfl | h2m
      · rfl
      · exact absurd (heq ▸ List.mem_map_of_mem Entry.eid h2m) hna
    · rcases List.mem_cons.mp h2 with rfl | h2m
      · exact absurd (heq ▸ List.mem_map_of_mem Entry.eid h1m) hna
      · exact ih hnd e1 h1m e2 h2m heq

/-- With duplicate-free eids, an And-scan is the intersection of the two
separate scans. -/
theorem matchEntryList_and {T : Type} (f : T → Value) (l : List (Entry T)) (p q : Predicate)
    (h : (l.map Entry.eid).Nodup) :
    matchEntryList f l (.and p q) = matchEntryList f l p ∩ matchEntryList f l q := by
  ext x
  simp only [Finset.mem_inter, mem_matchEntryList]
  constructor
  · rintro ⟨e, he, rfl, hpq⟩
    simp only [Predicate.test, Bool.and_eq_true] at hpq
    exact ⟨⟨e, he, rfl, hpq.1⟩, ⟨e, he, rfl, hpq.2⟩⟩
  · rintro ⟨⟨e1, hm1, he1, hp⟩, ⟨e2, hm2, he2, hq⟩⟩
    have heq : e1 = e2 := eq_of_nodup_eids l h e1 hm1 e2 hm2 (he1.trans he2.symm)
    subst heq
    exact ⟨e1, hm1, he1, by simp [Predicate.test, hp, hq]⟩

/-- match_by_predicates distributes an And over intersection when the
column's eids are duplicate-free. -/
theorem matchByPredicates_and (es : Entries) (p q : Predicate) (h : (Entries.eids es).Nodup) :
    matchByPredicates es (.and p q) = matchByPredicates es p ∩ matchByPredicates es q := by
  cases es with
  | bool l => exact matchEntryList_and Value.bool l p q h
  | int l => exact matchEntryList_and Value.int l p q h
  | string l => exact matchEntryList_and Value.string l p q h

/-- C4 (amended): when the scanned column holds at most one datum per
entity id, feeding the two separate Where scans through the cache's
intersecting merge produces exactly the id set of the fused And-scan, so
the optimizer rewrite is result-equivalent on such columns. -/
theorem C4_fusion_nodup (c : Cache) (name : ColumnName) (es : Entries) (p q : Predicate)
    (h1 : c.map name = none) (h2 : (Entries.eids es).Nodup) :
    ((c.insertOrMerge name (matchByPredicates es p)).insertOrMerge name
        (matchByPredicates es q)).map name =
      some (matchByPredicates es (.and p q)) := by
  simp [Cache.insertOrMerge, h1]
  rw [matchByPredicates_and es p q h2, Finset.inter_comm]

/-- Witness for C4_fusion_nodup on a two-entity column with distinct
eids. -/
theorem C4_fusion_witness :
    (Cache.new dbC4).map cnTV = none ∧ (Entries.eids entriesW).Nodup ∧
    ((((Cache.new dbC4).insertOrMerge cnTV (matchByPredicates entriesW predEq10)).insertOrMerge
          cnTV (matchByPredicates entriesW predEq20)).map cnTV =
      some (matchByPredicates entriesW (.and predEq10 predEq20))) :=
  ⟨rfl, by decide,
   C4_fusion_nodup (Cache.new dbC4) cnTV entriesW predEq10 predEq20 rfl (by decide)⟩

/-- Two cache merges commute: on distinct keys they touch different
entries, on the same key intersection is commutative and associative. -/
theorem insertOrMerge_comm (c : Cache) (n1 n2 : ColumnName) (e1 e2 : Eids) :
    (c.insertOrMerge n1 e1).insertOrMerge n2 e2 = (c.insertOrMerge n2 e2).insertOrMerge n1 e1 := by
  unfold Cache.insertOrMerge
  congr 1
  funext n
  by_cases h12 : n1 = n2
  · subst h12
    by_cases hn : n = n1
    · subst hn
      simp only [if_pos rfl]
      cases hc : c.map n
      · simp [Finset.inter_comm]
      · simp [Finset.inter_left_comm]
    · simp [hn]
  · by_cases hn2 : n = n2 <;> by_cases hn1 : n = n1
    · exact absurd (hn1.symm.trans hn2) h12
    · subst hn2
      simp [hn1, Ne.symm h12]
    · subst hn1
      simp [hn2, h12]
    · simp [hn1, hn2]

/-- The cache effect of two stage results commutes. -/
theorem cacheMerge_comm (c : Cache) (a b : ColumnName × Filtered) :
    cacheMerge (cacheMerge c a) b = cacheMerge (cacheMerge c b) a := by
  unfold cacheMerge
  cases ha : a.2 <;> cases hb : b.2 <;> simp [insertOrMerge_comm]

/-- The merge loop of exec splits into its cache effect and its appended
materialized slices. -/
theorem foldl_applyItem_split (items : List (ColumnName × Filtered)) :
    ∀ (c : Cache) (r : List (ColumnName × Entries)),
      items.foldl applyItem (c, r) = (items.foldl cacheMerge c, r ++ items.filterMap entriesOf) := by
  induction items with
  | nil => intro c r; simp
  | cons it rest ih =>
    intro c r
    cases hit : it.2 with
    | eids e =>
      simp only [List.foldl_cons, List.filterMap_cons]
      rw [show applyItem (c, r) it = (c.insertOrMerge it.1 e, r) by simp [applyItem, hit]]
      rw [ih]
      simp [cacheMerge, entriesOf, hit]
    | entries es =>
      simp only [List.foldl_cons, List.filterMap_cons]
      rw [show applyItem (c, r) it = (c, r ++ [(it.1, es)]) by simp [applyItem, hit]]
      rw [ih]
      simp [cacheMerge, entriesOf, hit]

/-- A fold by a commuting step function is invariant under permutation of
the folded list. -/
theorem foldl_perm_of_comm {α β : Type} (f : β → α → β)
    (hf : ∀ b a1 a2, f (f b a1) a2 = f (f b a2) a1) :
    ∀ {l1 l2 : List α}, l1.Perm l2 → ∀ b, l1.foldl f b = l2.foldl f b := by
  intro l1 l2 hp
  induction hp with
  | nil => intro b; rfl
  | cons x _ ih => intro b; simp only [List.foldl_cons]; exact ih _
  | swap x y l => intro b; simp only [List.foldl_cons]; rw [hf]
  | trans _ _ ih1 ih2 => intro b; rw [ih1, ih2]

/-- Stage-by-stage induction behind C5: with the same store, the same
stages and any two permutation schedules, the executor loop ends in
equivalent outcomes from result accumulators that are permutations of one
another. -/
theorem execLoop_perm (db : DbE) :
    ∀ (stages : List (List QueryNode)) (s1 s2 : List StageOrder) (cache : Cache)
      (r1 r2 : List (ColumnName × Entries)), r1.Perm r2 →
      (∀ f ∈ s1, ∀ l, (f l).Perm l) → (∀ f ∈ s2, ∀ l, (f l).Perm l) →
      outcomePerm (execLoop db cache r1 stages s1) (execLoop db cache r2 stages s2) := by
  intro stages
  induction stages with
  | nil =>
    intro s1 s2 cache r1 r2 hr _ _
    exact hr
  | cons stage rest ih =>
    intro s1 s2 cache r1 r2 hr h1 h2
    cases hs : execStage db cache stage with
    | aborted => simp [execLoop, hs, outcomePerm]
    | err e => simp [execLoop, hs, outcomePerm]
    | ok items =>
      have p1 : (match s1 with | [] => items | f :: _ => f items).Perm items := by
        cases s1 with
        | nil => exact List.Perm.refl items
        | cons f fs => exact h1 f (List.mem_cons_self f fs) items
      have p2 : (match s2 with | [] => items | f :: _ => f items).Perm items := by
        cases s2 with
        | nil => exact List.Perm.refl items
        | cons f fs => exact h2 f (List.mem_cons_self f fs) items
      simp only [execLoop, hs]
      rw [foldl_applyItem_split, foldl_applyItem_split]
      have hc : (match s1 with | [] => items | f :: _ => f items).foldl cacheMerge cache =
          (match s2 with | [] => items | f :: _ => f items).foldl cacheMerge cache :=
        foldl_perm_of_comm cacheMerge cacheMerge_comm (p1.trans p2.symm) cache
      rw [hc]
      exact ih s1.tail s2.tail _ _ _
        (List.Perm.append hr ((p1.trans p2.symm).filterMap entriesOf))
        (fun f hf => h1 f (List.mem_of_mem_tail hf))
        (fun f hf => h2 f (List.mem_of_mem_tail hf))

/-- C5 (confirmed): for every store and staged plan, two runs of exec that
collect each stage's task results in any orders return equivalent
outcomes — the same error or abort, or result lists that are permutations
of each other, so the returned (ColumnName, slice) multiset is
deterministic and intra-stage completion order is unobservable. -/
theorem C5_exec_deterministic (db : DbE) (stages : List (List QueryNode))
    (s1 s2 : List StageOrder)
    (h1 : ∀ f ∈ s1, ∀ l, (f l).Perm l) (h2 : ∀ f ∈ s2, ∀ l, (f l).Perm l) :
    outcomePerm (execSched db stages s1) (execSched db stages s2) :=
  execLoop_perm db stages s1 s2 (Cache.new db) [] [] (List.Perm.refl []) h1 h2

/-- Witness for C5_exec_deterministic: node order against reversed order on
a two-node stage. -/
theorem C5_witness :
    (∀ f ∈ ([] : List StageOrder), ∀ l, (f l).Perm l) ∧
    (∀ f ∈ [fun l : List (ColumnName × Filtered) => l.reverse], ∀ l, (f l).Perm l) ∧
    outcomePerm (execSched dbC5 planC5 [])
      (execSched dbC5 planC5 [fun l => l.reverse]) := by
  refine ⟨?_, ?_, ?_⟩
  · intro f hf
    exact absurd hf (List.not_mem_nil f)
  · intro f hf l
    rw [List.mem_singleton.mp hf]
    exact l.reverse_perm
  · exact C5_exec_deterministic dbC5 planC5 [] [fun l => l.reverse]
      (fun f hf => absurd hf (List.not_mem_nil f))
      (fun f hf l => by rw [List.mem_singleton.mp hf]; exact l.reverse_perm)

/-- Membership under stable time insertion. -/
theorem mem_insertByTime {T : Type} (d x : Datum T) (l : List (Datum T)) :
    x ∈ insertByTime d l ↔ x = d ∨ x ∈ l := by
  induction l with
  | nil => simp [insertByTime]
  | cons e es ih =>
    unfold insertByTime
    by_cases hc : e.time ≤ d.time
    · rw [if_pos hc]
      simp only [List.mem_cons, ih]
      tauto
    · rw [if_neg hc]
      simp only [List.mem_cons]

/-- Stable time insertion preserves time-sortedness. -/
theorem pairwise_insertByTime {T : Type} (d : Datum T) (l : List (Datum T))
    (h : l.Pairwise timeLE) : (insertByTime d l).Pairwise timeLE := by
  induction l with
  | nil => simp [insertByTime, List.pairwise_singleton]
  | cons e es ih =>
    rw [List.pairwise_cons] at h
    obtain ⟨he, hes⟩ := h
    unfold insertByTime
    by_cases hc : e.time ≤ d.time
    · rw [if_pos hc, List.pairwise_cons]
      refine ⟨?_, ih hes⟩
      intro x hx
      rcases (mem_insertByTime d x es).mp hx with rfl | hxm
      · exact hc
      · exact he x hxm
    · rw [if_neg hc, List.pairwise_cons]
      have hd : d.time ≤ e.time := le_of_not_le hc
      refine ⟨?_, List.pairwise_cons.mpr ⟨he, hes⟩⟩
      intro x hx
      rcases List.mem_cons.mp hx with rfl | hxm
      · exact hd
      · exact le_trans hd (he x hxm)

/-- The stable sort by time is time-sorted. -/
theorem pairwise_sortByTime {T : Type} (l : List (Datum T)) :
    (sortByTime l).Pairwise timeLE := by
  unfold sortByTime
  have haux : ∀ acc : List (Datum T), acc.Pairwise timeLE →
      (l.foldl (fun acc d => insertByTime d acc) acc).Pairwise timeLE := by
    induction l with
    | nil => intro acc h; exact h
    | cons d ds ih => intro acc h; exact ih _ (pairwise_insertByTime d acc h)
  exact haux [] List.Pairwise.nil

/-- Stable time insertion grows the length by one. -/
theorem length_insertByTime {T : Type} (d : Datum T) (l : List (Datum T)) :
    (insertByTime d l).length = l.length + 1 := by
  induction l with
  | nil => rfl
  | cons e es ih =>
    unfold insertByTime
    by_cases hc : e.time ≤ d.time
    · rw [if_pos hc]
      simp [ih]
    · rw [if_neg hc]
      simp

/-- The stable sort preserves length. -/
theorem length_sortByTime {T : Type} (l : List (Datum T)) :
    (sortByTime l).length = l.length := by
  unfold sortByTime
  have haux : ∀ acc : List (Datum T),
      (l.foldl (fun acc d => insertByTime d acc) acc).length = acc.length + l.length := by
    induction l with
    | nil => intro acc; rfl
    | cons d ds ih =>
      intro acc
      simp only [List.foldl_cons]
      rw [ih, length_insertByTime, List.length_cons]
      omega
  rw [haux []]
  simp

/-- Data::sort preserves the column length. -/
theorem len_data_sort (d : Data) : d.sort.len = d.len := by
  cases d <;> simp [Data.sort, Data.len, length_sortByTime]

/-- The times of a sorted column are non-decreasing. -/
theorem times_sorted (d : Data) : List.Sorted (· ≤ ·) d.sort.times := by
  cases d <;>
    (simp only [Data.sort, Data.times]
     exact List.pairwise_map.mpr (pairwise_sortByTime _))

/-- optimizeStep only reorders the datums and sets the sample: its data is
the time-sorted datum sequence. -/
theorem optimizeStep_data (c : Column) : (Column.optimizeStep c).data = c.data.sort := by
  unfold Column.optimizeStep Column.indexByTime Column.sortCol
  split <;> rfl

/-- C7 (amended): optimize_columns applies sort-then-index to every column;
afterwards every column's datum sequence is non-decreasing in time, a
column of length at least 5 carries the sample taken at positions
(len / 5) * i of the sorted sequence — not floor(i * len / 5) as the claim
states — and a shorter column's sample field is left untouched. -/
theorem C7_optimize :
    (∀ db : Db, (Db.optimizeColumns db).cols = db.cols.map (fun p => (p.1, p.2.optimizeStep))) ∧
    (∀ c : Column,
      List.Sorted (· ≤ ·) (Column.optimizeStep c).data.times ∧
      (5 ≤ c.data.len →
        (Column.optimizeStep c).time_index =
          some ((List.range 5).map
            (fun i => ((c.data.sort.get (c.data.len / 5 * i)).map GenericDatum.time).getD 0))) ∧
      (c.data.len < 5 → (Column.optimizeStep c).time_index = c.time_index)) := by
  constructor
  · intro db
    rfl
  · intro c
    refine ⟨?_, ?_, ?_⟩
    · rw [optimizeStep_data]
      exact times_sorted c.data
    · intro h5
      unfold Column.optimizeStep Column.indexByTime Column.sortCol
      simp only [len_data_sort]
      rw [if_neg (Nat.not_lt.mpr h5)]
    · intro h5
      unfold Column.optimizeStep Column.indexByTime Column.sortCol
      simp only [len_data_sort]
      rw [if_pos h5]

/-- Witness for C7_optimize on the seven-datum column. -/
theorem C7_witness :
    5 ≤ col7.data.len ∧
    (Column.optimizeStep col7).time_index =
      some ((List.range 5).map
        (fun i => ((col7.data.sort.get (col7.data.len / 5 * i)).map GenericDatum.time).getD 0)) :=
  ⟨by decide, (C7_optimize.2 col7).2.1 (by decide)⟩

/-- C7 (counterexample): on a seven-datum column the recorded sample is
taken at positions 0,1,2,3,4 (increment * i for increment = len / 5),
which differs from the claim's positions floor(i * len / 5) = 0,1,2,4,5. -/
theorem C7_counterexample :
    (Column.optimizeStep col7).time_index ≠ specTimeSample (Column.optimizeStep col7).data := by
  decide

/-- Lookup on a cons cell. -/
theorem lookupA_cons {κ α : Type} [DecidableEq κ] (p : κ × α) (l : List (κ × α)) (k : κ) :
    lookupA (p :: l) k = if p.1 = k then some p.2 else lookupA l k := by
  unfold lookupA
  rw [List.find?_cons]
  by_cases h : p.1 = k
  · simp [h]
  · simp [h]

/-- Insert on a cons cell: a matching head switches to the replace branch
(which rewrites every binding of the key), otherwise the head is kept and
the insert recurses. -/
theorem insertA_cons {κ α : Type} [DecidableEq κ] (p : κ × α) (l : List (κ × α)) (k : κ)
    (a : α) :
    insertA (p :: l) k a =
      if p.1 = k then (k, a) :: l.map (fun q => if q.1 = k then (k, a) else q)
      else p :: insertA l k a := by
  by_cases hp : p.1 = k
  · unfold insertA
    simp [List.find?_cons, hp]
  · unfold insertA
    simp only [List.find?_cons, decide_eq_false hp]
    split <;> simp [hp]

/-- Rewriting every binding of key k does not change lookups at other
keys. -/
theorem lookupA_mapReplace {κ α : Type} [DecidableEq κ] (l : List (κ × α)) (k k2 : κ) (a : α)
    (h : k2 ≠ k) :
    lookupA (l.map (fun q => if q.1 = k then (k, a) else q)) k2 = lookupA l k2 := by
  induction l with
  | nil => rfl
  | cons q qs ih =>
    rw [List.map_cons, lookupA_cons, lookupA_cons]
    by_cases hq : q.1 = k
    · rw [if_pos hq]
      have h1 : ((k, a) : κ × α).1 ≠ k2 := Ne.symm h
      have h2 : q.1 ≠ k2 := by rw [hq]; exact Ne.symm h
      rw [if_neg h1, if_neg h2]
      exact ih
    · rw [if_neg hq]
      by_cases hq2 : q.1 = k2
      · rw [if_pos hq2, if_pos hq2]
      · rw [if_neg hq2, if_neg hq2]
        exact ih

/-- Lookup after insert at the inserted key. -/
theorem lookupA_insertA_self {κ α : Type} [DecidableEq κ] (l : List (κ × α)) (k : κ) (a : α) :
    lookupA (insertA l k a) k = some a := by
  induction l with
  | nil =>
    show lookupA ([] ++ [(k, a)]) k = some a
    simp [lookupA]
  | cons p rest ih =>
    rw [insertA_cons]
    by_cases hp : p.1 = k
    · rw [if_pos hp, lookupA_cons]
      simp
    · rw [if_neg hp, lookupA_cons, if_neg hp]
      exact ih

/-- Lookup after insert at any other key. -/
theorem lookupA_insertA_ne {κ α : Type} [DecidableEq κ] (l : List (κ × α)) (k k2 : κ) (a : α)
    (h : k2 ≠ k) : lookupA (insertA l k a) k2 = lookupA l k2 := by
  induction l with
  | nil =>
    show lookupA ([] ++ [(k, a)]) k2 = lookupA [] k2
    simp [lookupA, Ne.symm h]
  | cons p rest ih =>
    rw [insertA_cons]
    by_cases hp : p.1 = k
    · rw [if_pos hp, lookupA_cons]
      have h1 : ((k, a) : κ × α).1 ≠ k2 := Ne.symm h
      rw [if_neg h1, lookupA_mapReplace rest k k2 a h, lookupA_cons]
      have h2 : p.1 ≠ k2 := by rw [hp]; exact Ne.symm h
      rw [if_neg h2]
    · rw [if_neg hp, lookupA_cons, lookupA_cons]
      by_cases hp2 : p.1 = k2
      · rw [if_pos hp2, if_pos hp2]
      · rw [if_neg hp2, if_neg hp2]
        exact ih

/-- C9 (confirmed): add_datum on an absent name returns NameNotFound with
the store untouched, and a raw text that does not parse at the named
column's declared type returns ParseError with the store untouched. -/
theorem C9_add_datum_no_mutation (db : Db) (name : ColumnName) (id : Nat) (value : String)
    (time : Nat) :
    (lookupA db.cols name = none →
      Db.addDatum db name id value time = (some (.nameNotFound name), db)) ∧
    (∀ col, lookupA db.cols name = some col → col.parseFails value = true →
      Db.addDatum db name id value time =
        (some (.parseError col.name col.declaredType), db)) := by
  constructor
  · intro h
    unfold Db.addDatum
    rw [h]
  · intro col hcol hfail
    obtain ⟨cname, cdata, cidx⟩ := col
    cases cdata with
    | bool l =>
      have hb : parseBool value = none := by
        simpa [Column.parseFails, Option.isNone_iff_eq_none] using hfail
      simp [Db.addDatum, hcol, Column.addDatum, hb, Column.declaredType]
    | int l =>
      have hb : parseUsize value = none := by
        simpa [Column.parseFails, Option.isNone_iff_eq_none] using hfail
      simp [Db.addDatum, hcol, Column.addDatum, hb, Column.declaredType]
    | string l =>
      simp [Column.parseFails] at hfail

/-- Witness for C9_add_datum_no_mutation: an absent column name and a Bool
column fed a non-boolean string. -/
theorem C9_witness :
    (lookupA dbW.cols cnUX = none ∧
      Db.addDatum dbW cnUX 1 "true" 2 = (some (.nameNotFound cnUX), dbW)) ∧
    (lookupA dbW.cols cnTV = some colW ∧ colW.parseFails "zzz" = true ∧
      Db.addDatum dbW cnTV 1 "zzz" 2 =
        (some (.parseError colW.name colW.declaredType), dbW)) :=
  ⟨⟨by decide, (C9_add_datum_no_mutation dbW cnUX 1 "true" 2).1 (by decide)⟩,
   ⟨by decide, by decide,
    (C9_add_datum_no_mutation dbW cnTV 1 "zzz" 2).2 colW (by decide) (by decide)⟩⟩

/-- C10 (confirmed): a successful add_column stores a fresh empty id set
under the column's table (replacing any live id set), adds exactly the one
new column, leaves every other column and every other table's id set
untouched, and leaves entity_count unchanged. -/
theorem C10_add_column (db : Db) (name : ColumnName) (t : ColumnType)
    (h : lookupA db.cols name = none) :
    ∃ db2, Db.addColumn db name t = .ok db2 ∧
      lookupA db2.ids name.table = some [] ∧
      lookupA db2.cols name = some (Column.new name t) ∧
      (∀ n2, n2 ≠ name → lookupA db2.cols n2 = lookupA db.cols n2) ∧
      (∀ tb, tb ≠ name.table → lookupA db2.ids tb = lookupA db.ids tb) ∧
      db2.entity_count = db.entity_count := by
  refine ⟨{ db with
              cols := insertA db.cols name (Column.new name t),
              ids := insertA db.ids name.table [] }, ?_, ?_, ?_, ?_, ?_, rfl⟩
  · unfold Db.addColumn
    rw [h]
  · exact lookupA_insertA_self db.ids name.table []
  · exact lookupA_insertA_self db.cols name (Column.new name t)
  · exact fun n2 hn2 => lookupA_insertA_ne db.cols name n2 (Column.new name t) hn2
  · exact fun tb htb => lookupA_insertA_ne db.ids name.table tb [] htb

/-- find_stage_index only returns indices inside the stage list. -/
theorem findStageIndex_lt (stages : List (List PlanNode)) (nd : PlanNode) :
    ∀ i, findStageIndex stages nd = some i → i < stages.length := by
  induction stages with
  | nil => intro i h; exact absurd h (by simp [findStageIndex])
  | cons s rest ih =>
    intro i h
    unfold findStageIndex at h
    by_cases hm : nd ∈ s
    · rw [if_pos hm] at h
      injection h with h
      rw [List.length_cons]
      omega
    · rw [if_neg hm] at h
      rcases Option.map_eq_some'.mp h with ⟨j, hj, rfl⟩
      have := ih j hj
      simp only [List.length_cons]
      omega

/-- The stage index chosen for a visit never skips past the end of the
stage list. -/
theorem visitStageIndex_le (ns : List NodeTriple) (stages : List (List PlanNode)) (v : Nat) :
    visitStageIndex ns stages v ≤ stages.length := by
  unfold visitStageIndex
  have haux : ∀ (l : List Nat) (acc : Int), acc ≤ (stages.length : Int) - 1 →
      l.foldl
        (fun acc u =>
          match (ns[u]? : Option NodeTriple) with
          | some tu =>
            match findStageIndex stages tu.1 with
            | some i => max acc (i : Int)
            | none => acc
          | none => acc)
        acc ≤ (stages.length : Int) - 1 := by
    intro l
    induction l with
    | nil => intro acc h; exact h
    | cons u us ih =>
      intro acc h
      simp only [List.foldl_cons]
      apply ih
      rcases hu : (ns[u]? : Option NodeTriple) with _ | tu
      · simpa using h
      · rcases hf : findStageIndex stages tu.1 with _ | i
        · simpa [hf] using h
        · have hi := findStageIndex_lt stages tu.1 i hf
          simp only [hf, max_le_iff]
          exact ⟨h, by omega⟩

  have hb := haux (inNbrs ns v) (-1) (by
    have : (0 : Int) ≤ (stages.length : Int) := by positivity
    omega)
  rw [Int.toNat_le]
  omega

/-- A vertex with no incoming neighbors is staged at index 0. -/
theorem visitStageIndex_zero (ns : List NodeTriple) (stages : List (List PlanNode)) (v : Nat)
    (h : inNbrs ns v = []) : visitStageIndex ns stages v = 0 := by
  unfold visitStageIndex
  rw [h]
  rfl

/-- A vertex whose triple provides nothing has no incoming edges. -/
theorem inNbrs_nil_of_prov_none (ns : List NodeTriple) (v : Nat) (t : NodeTriple)
    (hv : ns[v]? = some t) (hp : t.2.2 = none) : inNbrs ns v = [] := by
  unfold inNbrs
  rw [List.filter_eq_nil_iff]
  intro i _
  unfold hasEdge
  rw [hv]
  cases hi : ns[i]? with
  | none => simp
  | some a =>
    show ¬(match a.2.1, t.2.2 with
      | some r, some p => decide (r = p)
      | _, _ => false) = true
    rw [hp]
    cases a.2.1 <;> simp

/-- Membership in a stage's insert. -/
theorem mem_stageInsert (nd nd2 : PlanNode) (s : List PlanNode) :
    nd2 ∈ stageInsert nd s ↔ nd2 = nd ∨ nd2 ∈ s := by
  unfold stageInsert
  by_cases h : nd ∈ s
  · rw [if_pos h]
    constructor
    · exact Or.inr
    · rintro (rfl | hm)
      · exact h
      · exact hm
  · rw [if_neg h]
    simp only [List.mem_append, List.mem_singleton]
    exact or_comm

/-- A stage is never empty after an insert. -/
theorem stageInsert_ne_nil (nd : PlanNode) (s : List PlanNode) : stageInsert nd s ≠ [] := by
  unfold stageInsert
  by_cases h : nd ∈ s
  · rw [if_pos h]
    exact List.ne_nil_of_mem h
  · rw [if_neg h]
    simp

/-- Index-wise description of the stage update: the chosen index gets the
insert (over the previous stage there, or over a fresh empty one), every
other index is untouched. -/
theorem stagePlace_get (stages : List (List PlanNode)) (si : Nat) (nd : PlanNode)
    (h : si ≤ stages.length) (j : Nat) :
    (stagePlace stages si nd)[j]? =
      if si = j then some (stageInsert nd (stages.getD si [])) else stages[j]? := by
  unfold stagePlace
  by_cases hend : stages.length ≤ si
  · have hsi : si = stages.length := le_antisymm h hend
    subst hsi
    rw [if_pos hend]
    have hgetD : (stages ++ [[]]).getD stages.length [] = [] := by
      rw [List.getD_eq_getElem?_getD, List.getElem?_concat_length]
      rfl
    have hgetD2 : stages.getD stages.length [] = ([] : List PlanNode) := by
      rw [List.getD_eq_getElem?_getD, List.getElem?_eq_none (le_refl _)]
      rfl
    rw [hgetD, hgetD2]
    rw [List.getElem?_set]
    by_cases hj : stages.length = j
    · subst hj
      rw [if_pos rfl, if_pos rfl, if_pos (by simp)]
    · rw [if_neg hj, if_neg hj, List.getElem?_append]
      by_cases hlt : j < stages.length
      · rw [if_pos hlt]
      · rw [if_neg hlt]
        have h1 : stages[j]? = none := List.getElem?_eq_none (by omega)
        have h2 : ([[]] : List (List PlanNode))[j - stages.length]? = none :=
          List.getElem?_eq_none (by simp; omega)
        rw [h1, h2]
  · rw [if_neg hend]
    have hlt : si < stages.length := by omega
    rw [List.getElem?_set]
    by_cases hj : si = j
    · subst hj
      rw [if_pos rfl, if_pos rfl, if_pos hlt]
    · rw [if_neg hj, if_neg hj]

/-- Staging a visit never empties a stage. -/
theorem stageVisit_nonempty (ns : List NodeTriple) (stages : List (List PlanNode)) (v : Nat)
    (h : ∀ s ∈ stages, s ≠ []) : ∀ s ∈ stageVisit ns stages v, s ≠ [] := by
  unfold stageVisit
  cases hv : ns[v]? with
  | none => exact h
  | some t =>
    intro s hs
    rw [List.mem_iff_getElem?] at hs
    obtain ⟨j, hj⟩ := hs
    rw [stagePlace_get stages _ t.1 (visitStageIndex_le ns stages v) j] at hj
    by_cases hsi : visitStageIndex ns stages v = j
    · rw [if_pos hsi] at hj
      injection hj with hj
      rw [← hj]
      exact stageInsert_ne_nil _ _
    · rw [if_neg hsi] at hj
      rcases List.getElem?_eq_some.mp hj with ⟨hlt, rfl⟩
      exact h _ (List.getElem_mem hlt)

/-- Staging a visit keeps Select values confined to index 0: when a Select
vertex is visited its triple provides nothing, so it has no incoming
edges and its stage index is 0. -/
theorem stageVisit_selInv (ns : List NodeTriple) (stages : List (List PlanNode)) (v : Nat)
    (hns : ∀ (u : Nat) (t : NodeTriple), ns[u]? = some t → t.1.isSelect = true → t.2.2 = none)
    (h : ∀ j s nd, stages[j]? = some s → nd ∈ s → nd.isSelect = true → j = 0) :
    ∀ j s nd, (stageVisit ns stages v)[j]? = some s → nd ∈ s → nd.isSelect = true → j = 0 := by
  unfold stageVisit
  cases hv : ns[v]? with
  | none => exact h
  | some t =>
    intro j s nd hj hmem hsel
    rw [stagePlace_get stages _ t.1 (visitStageIndex_le ns stages v) j] at hj
    by_cases hsi : visitStageIndex ns stages v = j
    · rw [if_pos hsi] at hj
      injection hj with hj
      rw [← hj] at hmem
      rcases (mem_stageInsert t.1 nd _).mp hmem with rfl | hmem2
      · have hprov := hns v t hv hsel
        have hz := visitStageIndex_zero ns stages v (inNbrs_nil_of_prov_none ns v t hv hprov)
        omega
      · rw [List.getD_eq_getElem?_getD] at hmem2
        cases hg : stages[visitStageIndex ns stages v]? with
        | none =>
          rw [hg] at hmem2
          exact absurd hmem2 (List.not_mem_nil nd)
        | some s0 =>
          rw [hg] at hmem2
          have hz := h _ s0 nd hg hmem2 hsel
          omega
    · rw [if_neg hsi] at hj
      exact h j s nd hj hmem hsel

/-- Staging a visit preserves membership of a node at its stage index. -/
theorem stageVisit_mem_mono (ns : List NodeTriple) (stages : List (List PlanNode)) (v : Nat)
    (j : Nat) (s : List PlanNode) (nd : PlanNode) (hj : stages[j]? = some s) (hm : nd ∈ s) :
    ∃ s2, (stageVisit ns stages v)[j]? = some s2 ∧ nd ∈ s2 := by
  unfold stageVisit
  cases hv : ns[v]? with
  | none => exact ⟨s, hj, hm⟩
  | some t =>
    by_cases hsi : visitStageIndex ns stages v = j
    · refine ⟨stageInsert t.1 (stages.getD (visitStageIndex ns stages v) []), ?_, ?_⟩
      · rw [stagePlace_get stages _ t.1 (visitStageIndex_le ns stages v) j, if_pos hsi]
      · refine (mem_stageInsert _ _ _).mpr (Or.inr ?_)
        rw [List.getD_eq_getElem?_getD, hsi, hj]
        exact hm
    · refine ⟨s, ?_, hm⟩
      rw [stagePlace_get stages _ t.1 (visitStageIndex_le ns stages v) j, if_neg hsi]
      exact hj

/-- Nonemptiness is preserved along a whole visit sequence. -/
theorem foldlVisit_nonempty (ns : List NodeTriple) (vs : List Nat) :
    ∀ stages, (∀ s ∈ stages, s ≠ []) → ∀ s ∈ vs.foldl (stageVisit ns) stages, s ≠ [] := by
  induction vs with
  | nil => exact fun stages h => h
  | cons v vs ih => exact fun stages h => ih _ (stageVisit_nonempty ns stages v h)

/-- Select confinement is preserved along a whole visit sequence. -/
theorem foldlVisit_selInv (ns : List NodeTriple) (vs : List Nat)
    (hns : ∀ (u : Nat) (t : NodeTriple), ns[u]? = some t → t.1.isSelect = true → t.2.2 = none) :
    ∀ stages, (∀ j s nd, stages[j]? = some s → nd ∈ s → nd.isSelect = true → j = 0) →
      ∀ j s nd, (vs.foldl (stageVisit ns) stages)[j]? = some s → nd ∈ s →
        nd.isSelect = true → j = 0 := by
  induction vs with
  | nil => exact fun stages h => h
  | cons v vs ih => exact fun stages h => ih _ (stageVisit_selInv ns stages v hns h)

/-- Indexed membership is preserved along a whole visit sequence. -/
theorem foldlVisit_mem_mono (ns : List NodeTriple) (vs : List Nat) :
    ∀ stages (j : Nat) (s : List PlanNode) (nd : PlanNode), stages[j]? = some s → nd ∈ s →
      ∃ s2, (vs.foldl (stageVisit ns) stages)[j]? = some s2 ∧ nd ∈ s2 := by
  induction vs with
  | nil => exact fun stages j s nd hj hm => ⟨s, hj, hm⟩
  | cons v vs ih =>
    intro stages j s nd hj hm
    obtain ⟨s1, h1, m1⟩ := stageVisit_mem_mono ns stages v j s nd hj hm
    exact ih _ j s1 nd h1 m1

/-- The node parse_line builds for a Where line is never a Select. -/
theorem isSelect_whereNodeFor (left : ColumnName) (pred : Predicate) :
    (whereNodeFor left pred).isSelect = false := by
  unfold whereNodeFor
  split
  · split <;> rfl
  · rfl

/-- Every Select triple of build_graph provides nothing: only Where,
WhereId and Join carry a provides column. -/
theorem selectProvNone (lines : List QueryLine) :
    ∀ t ∈ buildNodes lines, t.1.isSelect = true → t.2.2 = none := by
  intro t ht hsel
  unfold buildNodes at ht
  rw [List.mem_flatten] at ht
  obtain ⟨l, hl, htl⟩ := ht
  rw [List.mem_map] at hl
  obtain ⟨line, _, rfl⟩ := hl
  cases line with
  | selectL cols =>
    unfold parseLine at htl
    rw [List.mem_map] at htl
    obtain ⟨col, _, heq⟩ := htl
    rw [← heq]
  | whereL left pred =>
    unfold parseLine at htl
    rw [List.mem_singleton] at htl
    rw [htl] at hsel
    have hfalse := isSelect_whereNodeFor left pred
    simp only [hfalse] at hsel
    cases hsel
  | joinL left right =>
    simp only [parseLine, List.mem_singleton] at htl
    rw [htl] at hsel
    simp [PlanNode.isSelect] at hsel
  | limitL n =>
    exact absurd htl (List.not_mem_nil t)

/-- The first step of a fresh Dfs from vertex k visits k itself. -/
theorem dfsVisits_start (ns : List NodeTriple) (fuel : Nat) (k : Nat) :
    dfsVisits ns (fuel + 1) [k] [] =
      k :: dfsVisits ns fuel ((outNbrs ns k).filter (fun u => u ∉ ([] : List Nat)) ++ []) [k] := by
  conv_lhs => rw [dfsVisits]
  rw [if_neg (List.not_mem_nil k)]

/-- Visiting an external Select vertex places its node value in stage 0,
where it stays for the rest of the Dfs. -/
theorem select_placed (ns : List NodeTriple) (k : Nat) (t : NodeTriple) (hk : ns[k]? = some t)
    (hprov : t.2.2 = none) (stages : List (List PlanNode)) :
    ∃ s, ((dfsVisits ns (ns.length * ns.length + 1) [k] []).foldl (stageVisit ns) stages)[0]? =
        some s ∧ t.1 ∈ s := by
  rw [dfsVisits_start, List.foldl_cons]
  have hz : visitStageIndex ns stages k = 0 :=
    visitStageIndex_zero ns stages k (inNbrs_nil_of_prov_none ns k t hk hprov)
  have h1 : (stageVisit ns stages k)[0]? = some (stageInsert t.1 (stages.getD 0 [])) := by
    unfold stageVisit
    simp only [hk]
    rw [hz, stagePlace_get stages 0 t.1 (Nat.zero_le _) 0, if_pos rfl]
  exact foldlVisit_mem_mono ns _ (stageVisit ns stages k) 0 _ t.1 h1
    ((mem_stageInsert _ _ _).mpr (Or.inl rfl))

/-- Indexed membership survives the whole externals loop. -/
theorem outerFold_mem_mono (ns : List NodeTriple) (es : List Nat) :
    ∀ (stages : List (List PlanNode)) (j : Nat) (s : List PlanNode) (nd : PlanNode),
      stages[j]? = some s → nd ∈ s →
      ∃ s2, (es.foldl
          (fun st e => (dfsVisits ns (ns.length * ns.length + 1) [e] []).foldl (stageVisit ns) st)
          stages)[j]? = some s2 ∧ nd ∈ s2 := by
  induction es with
  | nil => exact fun stages j s nd hj hm => ⟨s, hj, hm⟩
  | cons e es ih =>
    intro stages j s nd hj hm
    simp only [List.foldl_cons]
    obtain ⟨s1, h1, m1⟩ := foldlVisit_mem_mono ns _ stages j s nd hj hm
    exact ih _ j s1 nd h1 m1

/-- Nonemptiness survives the whole externals loop. -/
theorem outerFold_nonempty (ns : List NodeTriple) (es : List Nat) :
    ∀ (stages : List (List PlanNode)), (∀ s ∈ stages, s ≠ []) →
      ∀ s ∈ es.foldl
          (fun st e => (dfsVisits ns (ns.length * ns.length + 1) [e] []).foldl (stageVisit ns) st)
          stages, s ≠ [] := by
  induction es with
  | nil => exact fun stages h => h
  | cons e es ih =>
    intro stages h
    simp only [List.foldl_cons]
    exact ih _ (foldlVisit_nonempty ns _ stages h)

/-- Select confinement survives the whole externals loop. -/
theorem outerFold_selInv (ns : List NodeTriple) (es : List Nat)
    (hns : ∀ (u : Nat) (t : NodeTriple), ns[u]? = some t → t.1.isSelect = true → t.2.2 = none) :
    ∀ (stages : List (List PlanNode)),
      (∀ j s nd, stages[j]? = some s → nd ∈ s → nd.isSelect = true → j = 0) →
      ∀ j s nd, (es.foldl
          (fun st e => (dfsVisits ns (ns.length * ns.length + 1) [e] []).foldl (stageVisit ns) st)
          stages)[j]? = some s → nd ∈ s → nd.isSelect = true → j = 0 := by
  induction es with
  | nil => exact fun stages h => h
  | cons e es ih =>
    intro stages h
    simp only [List.foldl_cons]
    exact ih _ (foldlVisit_selInv ns _ hns stages h)

/-- Dropping the last element of a reversed list is reversing the tail. -/
theorem reverse_dropLast {α : Type} (l : List α) : l.reverse.dropLast = l.tail.reverse := by
  cases l with
  | nil => rfl
  | cons a xs =>
    rw [List.reverse_cons, List.dropLast_concat]
    rfl

/-- Staging properties of build_stages for any vertex list whose Select
triples provide nothing: no Select value before the final stage, every
Select triple's value in the final stage, and no empty stage. -/
theorem staging_props (ns : List NodeTriple)
    (hprovs : ∀ (u : Nat) (t : NodeTriple), ns[u]? = some t → t.1.isSelect = true →
      t.2.2 = none) :
    (∀ s ∈ (stageAll ns).dropLast, ∀ nd ∈ s, nd.isSelect = false) ∧
    (∀ t ∈ ns, t.1.isSelect = true → ∃ s, (stageAll ns).getLast? = some s ∧ t.1 ∈ s) ∧
    (∀ s ∈ stageAll ns, s ≠ []) := by
  have hbase0 : ∀ (j : Nat) (s : List PlanNode) (nd : PlanNode),
      (([] : List (List PlanNode)))[j]? = some s → nd ∈ s → nd.isSelect = true → j = 0 := by
    intro j s nd hj hm hsel
    simp at hj
  have hbaseNE : ∀ s ∈ ([] : List (List PlanNode)), s ≠ [] := by
    intro s hs
    exact absurd hs (List.not_mem_nil s)
  have hinv := outerFold_selInv ns (externals ns) hprovs [] hbase0
  have hne := outerFold_nonempty ns (externals ns) [] hbaseNE
  refine ⟨?_, ?_, ?_⟩
  · intro s hs nd hnd
    unfold stageAll at hs
    rw [reverse_dropLast, List.mem_reverse, List.mem_iff_getElem?] at hs
    obtain ⟨i, hi⟩ := hs
    rw [List.getElem?_tail] at hi
    cases hbool : nd.isSelect
    · rfl
    · have := hinv (i + 1) s nd hi hnd hbool
      omega
  · intro t ht hsel
    rw [List.mem_iff_getElem?] at ht
    obtain ⟨k, hk⟩ := ht
    have hprov := hprovs k t hk hsel
    have hkext : k ∈ externals ns := by
      unfold externals
      rw [List.mem_filter, List.mem_range]
      refine ⟨(List.getElem?_eq_some.mp hk).1, ?_⟩
      rw [inNbrs_nil_of_prov_none ns k t hk hprov]
      simp
    obtain ⟨l1, l2, hsplit⟩ := List.append_of_mem hkext
    obtain ⟨s0, hs0, hm0⟩ := select_placed ns k t hk hprov
      (l1.foldl
        (fun st e => (dfsVisits ns (ns.length * ns.length + 1) [e] []).foldl (stageVisit ns) st)
        [])
    obtain ⟨s1, hs1, hm1⟩ := outerFold_mem_mono ns l2 _ 0 s0 t.1 hs0 hm0
    refine ⟨s1, ?_, hm1⟩
    unfold stageAll
    rw [List.getLast?_reverse, List.head?_eq_getElem?, hsplit, List.foldl_append,
      List.foldl_cons]
    exact hs1
  · intro s hs
    unfold stageAll at hs
    rw [List.mem_reverse] at hs
    exact hne s hs

/-- C8 (amended): for every list of query lines, the staging of
build_stages places every Select node value in the final stage, no earlier
stage contains a Select value, and no stage is empty.  is_valid may
nonetheless reject the plan — the claim's parenthetical fails — because a
non-Select node whose output no Select consumes lands in the final stage
with the Selects (see the counterexample). -/
theorem C8_staging (lines : List QueryLine) :
    (∀ s ∈ (buildStages lines).dropLast, ∀ nd ∈ s, nd.isSelect = false) ∧
    (∀ t ∈ buildNodes lines, t.1.isSelect = true →
      ∃ s, (buildStages lines).getLast? = some s ∧ t.1 ∈ s) ∧
    (∀ s ∈ buildStages lines, s ≠ []) := by
  have hprovs : ∀ (u : Nat) (t : NodeTriple), (buildNodes lines)[u]? = some t →
      t.1.isSelect = true → t.2.2 = none := by
    intro u t hu hsel
    rcases List.getElem?_eq_some.mp hu with ⟨hlt, heq⟩
    exact selectProvNone lines t (heq ▸ List.getElem_mem hlt) hsel
  exact staging_props (buildNodes lines) hprovs

/-- Witness for C8_staging: the select of t.v over a where on t.v is placed
in the final stage. -/
theorem C8_witness :
    tripleC8W ∈ buildNodes linesC8W ∧ tripleC8W.1.isSelect = true ∧
    ∃ s, (buildStages linesC8W).getLast? = some s ∧ tripleC8W.1 ∈ s :=
  ⟨by decide, by decide, (C8_staging linesC8W).2.1 tripleC8W (by decide) (by decide)⟩

/-- C8 (counterexample): syntactically valid query lines — a select of t.v
next to a where on the unrelated table u — build a single stage holding
both nodes, and is_valid rejects the plan with InvalidStageOrder, so the
claim's conclusion that is_valid returns Ok fails. -/
theorem C8_counterexample :
    isValid (buildStages linesC8) = Except.error PlanError.invalidStageOrder := by
  rfl

/-- Witness for C10_add_column: adding a second column to table t, whose id
set is live (holds 5), wipes that id set. -/
theorem C10_witness :
    lookupA dbW.cols { table := "t", column := "w" } = none ∧
    ∃ db2, Db.addColumn dbW { table := "t", column := "w" } .int = .ok db2 ∧
      lookupA db2.ids ({ table := "t", column := "w" } : ColumnName).table = some [] ∧
      lookupA db2.cols { table := "t", column := "w" } =
        some (Column.new { table := "t", column := "w" } .int) ∧
      (∀ n2, n2 ≠ ({ table := "t", column := "w" } : ColumnName) →
        lookupA db2.cols n2 = lookupA dbW.cols n2) ∧
      (∀ tb, tb ≠ ({ table := "t", column := "w" } : ColumnName).table →
        lookupA db2.ids tb = lookupA dbW.ids tb) ∧
      db2.entity_count = dbW.entity_count :=
  ⟨by decide, C10_add_column dbW { table := "t", column := "w" } .int (by decide)⟩

end TwinQuery
